import Mathlib

/-!
Verification of the Request Admission & Caching Layer of the OCR service:
the TTL/LRU cache (`app/cache.py`, class `TTLCache`) and the sliding-window
rate limiter (`app/rate_limit.py`, class `RateLimiter`).

Modelling choices:
* Wall-clock instants (`time.time()`) are rationals `ℚ`; the current time is
  passed explicitly to each operation.
* `OrderedDict` is a list of `(key, value, timestamp)` entries in recency
  order: head = least recently used (first popped by `popitem(last=False)`),
  last = most recently used.
* The limiter's `defaultdict(deque)` is an association list from client id to
  the list of timestamps, oldest first; `defaultdict` access that inserts a
  missing key is modelled by writing the (possibly empty) queue back into the
  map on every call, which is the net effect of the Python code.
* The cache's value type is a parameter `α` (the cache treats it as opaque).
* Integer-valued configuration fields (`max_size`, `max_requests`) are `ℤ`,
  matching Python `int`, which may be zero or negative; the constructors
  perform no validation, exactly as in the source.
-/

/-- One cache entry: key, value, and insertion timestamp (`time.time()`). -/
abbrev CacheEntry (α : Type) := String × α × ℚ

/-- The `while len(self.cache) > self.max_size: self.cache.popitem(last=False)`
loop of `TTLCache.set`: repeatedly drop the least-recently-used (front) entry
while the store is over capacity.  This is the non-raising projection of the
loop, adequate whenever `0 ≤ maxSize` (`evictOldest?_of_nonneg`); for a
negative `maxSize` the Python loop body also runs on the already emptied
`OrderedDict`, where `popitem` raises `KeyError` — that error path is
modelled exactly by `evictOldest?` below. -/
def evictOldest (maxSize : ℤ) : List (CacheEntry α) → List (CacheEntry α)
  | [] => []
  | e :: rest =>
    if maxSize < ((e :: rest).length : ℤ) then evictOldest maxSize rest
    else e :: rest

/-- The same eviction loop with its error path explicit: `none` is the
`KeyError` that Python's `popitem(last=False)` raises when the loop body is
entered on an empty `OrderedDict` (`len(cache) = 0 > maxSize`, i.e. exactly
when `maxSize < 0`). -/
def evictOldest? (maxSize : ℤ) :
    List (CacheEntry α) → Option (List (CacheEntry α))
  | [] => if maxSize < 0 then none else some []
  | e :: rest =>
    if maxSize < ((e :: rest).length : ℤ) then evictOldest? maxSize rest
    else some (e :: rest)

/-- State of `app/cache.py`'s `TTLCache` (the lock only serializes calls and
has no sequential content). -/
structure TTLCache (α : Type) where
  max_size : ℤ
  ttl_seconds : ℚ
  cache : List (CacheEntry α)
  deriving Repr, DecidableEq

/-- Python `TTLCache.__init__`: stores the two parameters and an empty `OrderedDict`.
No validation is performed (the Python constructor only assigns fields). -/
def TTLCache.init (α : Type) (max_size ttl_seconds : ℤ) : TTLCache α :=
  { max_size := max_size, ttl_seconds := (ttl_seconds : ℚ), cache := [] }

/-- Python `TTLCache.get`: return the value if present and unexpired, deleting an
expired entry and promoting a live one to most-recently-used
(`move_to_end`).  Returns the result together with the new state. -/
def TTLCache.get (s : TTLCache α) (key : String) (now : ℚ) :
    Option α × TTLCache α :=
  match s.cache.find? (fun e => e.1 == key) with
  | none => (none, s)
  | some e =>
    if s.ttl_seconds < now - e.2.2 then
      -- expired: `del self.cache[key]`
      (none, { s with cache := s.cache.eraseP (fun x => x.1 == key) })
    else
      -- live: `self.cache.move_to_end(key)`
      (e.2.1, { s with cache := s.cache.eraseP (fun x => x.1 == key) ++ [e] })

/-- Python `TTLCache.set`: delete an existing entry for the key, append the fresh
entry (most-recently-used position, timestamp `now`), then evict from the
least-recently-used end while over `max_size`. -/
def TTLCache.set (s : TTLCache α) (key : String) (v : α) (now : ℚ) :
    TTLCache α :=
  let c1 := if s.cache.any (fun e => e.1 == key)
            then s.cache.eraseP (fun e => e.1 == key) else s.cache
  { s with cache := evictOldest s.max_size (c1 ++ [(key, v, now)]) }

/-- Python `TTLCache.set` with the eviction loop's `KeyError` explicit:
`none` means the call raises.  `set?_eq_set` shows agreement with `set`
whenever `0 ≤ max_size`; `set?_of_neg` shows every `set` on a cache with
negative `max_size` raises. -/
def TTLCache.set? (s : TTLCache α) (key : String) (v : α) (now : ℚ) :
    Option (TTLCache α) :=
  let c1 := if s.cache.any (fun e => e.1 == key)
            then s.cache.eraseP (fun e => e.1 == key) else s.cache
  (evictOldest? s.max_size (c1 ++ [(key, v, now)])).map
    (fun c2 => { s with cache := c2 })

/-- Python `TTLCache.clear`: `self.cache.clear()`. -/
def TTLCache.clear (s : TTLCache α) : TTLCache α := { s with cache := [] }

/-- Python `TTLCache.size`: `len(self.cache)`. -/
def TTLCache.size (s : TTLCache α) : ℕ := s.cache.length

/-- The pruning loop of the rate limiter:
`while client_requests and client_requests[0] <= now - self.window_seconds:
client_requests.popleft()`.  `wstart` is `now - window_seconds`. -/
def pruneOld (wstart : ℚ) : List ℚ → List ℚ
  | [] => []
  | t :: rest => if t ≤ wstart then pruneOld wstart rest else t :: rest

/-- State of `app/rate_limit.py`'s `RateLimiter`: the `defaultdict` mapping
client ids to deques of request timestamps, oldest first. -/
structure RateLimiter where
  max_requests : ℤ
  window_seconds : ℚ
  requests : List (String × List ℚ)
  deriving Repr, DecidableEq

/-- Python `RateLimiter.__init__`: stores the two parameters and an empty map.
No validation is performed (the Python constructor only assigns fields). -/
def RateLimiter.init (max_requests window_seconds : ℤ) : RateLimiter :=
  { max_requests := max_requests, window_seconds := (window_seconds : ℚ),
    requests := [] }

/-- Read a client's timestamp queue (`self.requests[client_ip]`'s value; a
missing client reads as the empty queue the `defaultdict` would create). -/
def getClient (m : List (String × List ℚ)) (c : String) : List ℚ :=
  ((m.find? (fun p => p.1 == c)).map Prod.snd).getD []

/-- Store a client's queue in the map: update in place if the client is
present, append a new binding otherwise (dict insertion order). -/
def setClient : List (String × List ℚ) → String → List ℚ →
    List (String × List ℚ)
  | [], c, q => [(c, q)]
  | p :: m, c, q => if p.1 == c then (c, q) :: m else p :: setClient m c q

/-- Python `RateLimiter.is_allowed`: prune the client's queue, admit and record `now`
if the pruned length is under `max_requests`, else reject without recording.
Returns `(allowed, remaining)` and the new state. -/
def RateLimiter.is_allowed (s : RateLimiter) (c : String) (now : ℚ) :
    (Bool × ℤ) × RateLimiter :=
  let pruned := pruneOld (now - s.window_seconds) (getClient s.requests c)
  if (pruned.length : ℤ) < s.max_requests then
    let q2 := pruned ++ [now]
    ((true, s.max_requests - (q2.length : ℤ)),
     { s with requests := setClient s.requests c q2 })
  else
    ((false, 0), { s with requests := setClient s.requests c pruned })

/-- Python `RateLimiter.get_remaining`: prune the client's queue and report
`max(0, max_requests - len(queue))` without recording a request. -/
def RateLimiter.get_remaining (s : RateLimiter) (c : String) (now : ℚ) :
    ℤ × RateLimiter :=
  let pruned := pruneOld (now - s.window_seconds) (getClient s.requests c)
  (max 0 (s.max_requests - (pruned.length : ℤ)),
   { s with requests := setClient s.requests c pruned })

/-- Replace one client's queue wholesale (used to state frame properties). -/
def RateLimiter.withQueue (s : RateLimiter) (c : String) (q : List ℚ) :
    RateLimiter :=
  { s with requests := setClient s.requests c q }

/-! ### Helper lemmas about the cache -/

attribute [local semireducible] Rat.sub Rat.add Rat.mul Rat.inv

variable {α : Type}

/-- The eviction loop leaves at most `maxSize` entries (for `0 ≤ maxSize`). -/
theorem evictOldest_length_le (m : ℤ) (hm : 0 ≤ m) (l : List (CacheEntry α)) :
    ((evictOldest m l).length : ℤ) ≤ m := by
  induction l with
  | nil => simpa [evictOldest] using hm
  | cons e rest ih =>
    rw [evictOldest]
    split
    · exact ih
    · next h => simpa using not_lt.mp h

/-- The eviction loop returns a sublist of its input. -/
theorem evictOldest_sublist (m : ℤ) (l : List (CacheEntry α)) :
    (evictOldest m l).Sublist l := by
  induction l with
  | nil => simp [evictOldest]
  | cons e rest ih =>
    rw [evictOldest]
    split
    · exact ih.trans (List.sublist_cons_self e rest)
    · exact List.Sublist.refl _

/-- For a non-negative capacity the eviction loop cannot raise: the
error-aware loop agrees with the non-raising projection. -/
theorem evictOldest?_of_nonneg (m : ℤ) (hm : 0 ≤ m)
    (l : List (CacheEntry α)) : evictOldest? m l = some (evictOldest m l) := by
  induction l with
  | nil =>
    rw [evictOldest?, evictOldest, if_neg (not_lt.mpr hm)]
  | cons e rest ih =>
    rw [evictOldest?, evictOldest]
    by_cases hc : m < (((e :: rest).length : ℕ) : ℤ)
    · rw [if_pos hc, if_pos hc]
      exact ih
    · rw [if_neg hc, if_neg hc]

/-- For a negative capacity the eviction loop always empties the store and
then raises `KeyError` (`none`). -/
theorem evictOldest?_of_neg (m : ℤ) (hm : m < 0) (l : List (CacheEntry α)) :
    evictOldest? m l = none := by
  induction l with
  | nil => rw [evictOldest?, if_pos hm]
  | cons e rest ih =>
    rw [evictOldest?,
      if_pos (lt_of_lt_of_le hm (Int.natCast_nonneg _))]
    exact ih

/-- On a cache with non-negative `max_size`, `set` never raises and `set?`
agrees with the non-raising `set` used throughout. -/
theorem set?_eq_set (s : TTLCache α) (hm : 0 ≤ s.max_size) (k : String)
    (v : α) (now : ℚ) : s.set? k v now = some (s.set k v now) := by
  simp only [TTLCache.set?, TTLCache.set,
    evictOldest?_of_nonneg s.max_size hm, Option.map_some']

/-- On a cache with negative `max_size`, every `set` raises `KeyError`. -/
theorem set?_of_neg (s : TTLCache α) (hm : s.max_size < 0) (k : String)
    (v : α) (now : ℚ) : s.set? k v now = none := by
  simp only [TTLCache.set?, evictOldest?_of_neg s.max_size hm,
    Option.map_none']

/-- With capacity at least one, evicting from `l ++ [e]` keeps the final
(most recent) entry `e` and a selection of the older entries. -/
theorem evictOldest_append_last (m : ℤ) (hm : 1 ≤ m) (l : List (CacheEntry α))
    (e : CacheEntry α) :
    ∃ l2, evictOldest m (l ++ [e]) = l2 ++ [e] ∧ ∀ x ∈ l2, x ∈ l := by
  induction l with
  | nil =>
    refine ⟨[], ?_, by simp⟩
    simp only [List.nil_append]
    rw [evictOldest]
    have h1 : ¬ m < (([e] : List (CacheEntry α)).length : ℤ) := by
      simp only [List.length_singleton, Nat.cast_one]
      omega
    rw [if_neg h1]
  | cons a l ih =>
    rw [List.cons_append, evictOldest]
    split
    · obtain ⟨l2, h1, h2⟩ := ih
      exact ⟨l2, h1, fun x hx => List.mem_cons_of_mem a (h2 x hx)⟩
    · exact ⟨a :: l, by simp, fun x hx => hx⟩

/-- Searching a list whose only entry with key `k` is the final one finds
that final entry. -/
theorem find?_append_last (l : List (CacheEntry α)) (k : String) (v : α)
    (T : ℚ) (h : ∀ x ∈ l, x.1 ≠ k) :
    (l ++ [(k, v, T)]).find? (fun e => e.1 == k) = some (k, v, T) := by
  induction l with
  | nil => simp [List.find?]
  | cons a l ih =>
    rw [List.cons_append, List.find?]
    have ha : (a.1 == k) = false := beq_eq_false_iff_ne.mpr (h a (by simp))
    rw [ha]
    exact ih fun x hx => h x (List.mem_cons_of_mem a hx)

/-- If the cache's keys are pairwise distinct, deleting key `k` leaves no
entry with key `k`. -/
theorem eraseP_no_key (l : List (CacheEntry α)) (k : String)
    (hnd : (l.map Prod.fst).Nodup) :
    ∀ x ∈ l.eraseP (fun e => e.1 == k), x.1 ≠ k := by
  induction l with
  | nil => simp [List.eraseP]
  | cons a l ih =>
    rw [List.map_cons, List.nodup_cons] at hnd
    rw [List.eraseP_cons]
    cases ha : (a.1 == k) with
    | true =>
      simp only [cond_true]
      intro x hx
      have hak : a.1 = k := by simpa using ha
      intro hxk
      apply hnd.1
      rw [hak, ← hxk]
      exact List.mem_map_of_mem Prod.fst hx
    | false =>
      simp only [cond_false]
      intro x hx
      rcases List.mem_cons.mp hx with h | h
      · subst h
        simpa using ha
      · exact ih hnd.2 x h

/-- After deleting key `k` as `TTLCache.set` does (only when present), no
entry with key `k` remains, provided the cache's keys are distinct. -/
theorem erasedCache_no_key (l : List (CacheEntry α)) (k : String)
    (hnd : (l.map Prod.fst).Nodup) :
    ∀ x ∈ (if l.any (fun e => e.1 == k) then l.eraseP (fun e => e.1 == k)
           else l), x.1 ≠ k := by
  split
  · exact eraseP_no_key l k hnd
  · next h =>
    intro x hx hxk
    have hfalse : l.any (fun e => e.1 == k) = false := Bool.eq_false_iff.mpr h
    have h2 := List.any_eq_false.mp hfalse
    exact h2 x hx (by simpa using hxk)

/-- Structure of the store after `TTLCache.set`: the fresh entry sits at the
most-recently-used end, below entries whose keys differ from `key`
(assuming distinct keys and capacity at least one). -/
theorem set_cache_structure (s : TTLCache α) (key : String) (v : α) (now : ℚ)
    (hnd : (s.cache.map Prod.fst).Nodup) (hm : 1 ≤ s.max_size) :
    ∃ l2, (s.set key v now).cache = l2 ++ [(key, v, now)] ∧
      ∀ x ∈ l2, x.1 ≠ key := by
  rw [TTLCache.set]
  obtain ⟨l2, h1, h2⟩ := evictOldest_append_last s.max_size hm
    (if s.cache.any (fun e => e.1 == key)
     then s.cache.eraseP (fun e => e.1 == key) else s.cache) (key, v, now)
  exact ⟨l2, h1, fun x hx => erasedCache_no_key s.cache key hnd x (h2 x hx)⟩

/-- Looking up the key just written by `TTLCache.set` finds the fresh entry
`(key, v, now)` (distinct keys, capacity at least one). -/
theorem find?_set (s : TTLCache α) (key : String) (v : α) (now : ℚ)
    (hnd : (s.cache.map Prod.fst).Nodup) (hm : 1 ≤ s.max_size) :
    (s.set key v now).cache.find? (fun e => e.1 == key) = some (key, v, now) := by
  obtain ⟨l2, h1, h2⟩ := set_cache_structure s key v now hnd hm
  rw [h1]
  exact find?_append_last l2 key v now h2

/-- The entry just written by `TTLCache.set` is the most-recently-used one
(distinct keys, capacity at least one). -/
theorem getLast?_set (s : TTLCache α) (key : String) (v : α) (now : ℚ)
    (hnd : (s.cache.map Prod.fst).Nodup) (hm : 1 ≤ s.max_size) :
    (s.set key v now).cache.getLast? = some (key, v, now) := by
  obtain ⟨l2, h1, _⟩ := set_cache_structure s key v now hnd hm
  rw [h1]
  exact List.getLast?_concat l2

/-- Python `TTLCache.set` preserves distinctness of the stored keys. -/
theorem set_keys_nodup (s : TTLCache α) (key : String) (v : α) (now : ℚ)
    (hnd : (s.cache.map Prod.fst).Nodup) :
    (((s.set key v now).cache.map Prod.fst)).Nodup := by
  rw [TTLCache.set]
  have hsub : ((evictOldest s.max_size
      ((if s.cache.any (fun e => e.1 == key)
        then s.cache.eraseP (fun e => e.1 == key) else s.cache) ++
        [(key, v, now)])).map Prod.fst).Sublist
      (((if s.cache.any (fun e => e.1 == key)
        then s.cache.eraseP (fun e => e.1 == key) else s.cache) ++
        [(key, v, now)]).map Prod.fst) :=
    (evictOldest_sublist _ _).map Prod.fst
  refine hsub.nodup ?_
  rw [List.map_append, List.map_cons, List.map_nil]
  have hc1 : ((if s.cache.any (fun e => e.1 == key)
      then s.cache.eraseP (fun e => e.1 == key) else s.cache).map
      Prod.fst).Nodup := by
    split
    · exact ((List.eraseP_sublist _).map Prod.fst).nodup hnd
    · exact hnd
  have hnk : key ∉ ((if s.cache.any (fun e => e.1 == key)
      then s.cache.eraseP (fun e => e.1 == key) else s.cache).map Prod.fst) := by
    intro hmem
    obtain ⟨x, hx, hxk⟩ := List.mem_map.mp hmem
    exact erasedCache_no_key s.cache key hnd x hx hxk
  have hdisj : ((if s.cache.any (fun e => e.1 == key)
      then s.cache.eraseP (fun e => e.1 == key) else s.cache).map
      Prod.fst).Disjoint [(key, v, now).1] := by
    intro a ha hb
    rw [List.mem_singleton] at hb
    subst hb
    exact hnk ha
  exact List.Nodup.append hc1 (List.nodup_singleton _) hdisj

/-- Behaviour of `TTLCache.get` on an entry found expired: the value is
reported absent and the entry is deleted. -/
theorem get_expired (s : TTLCache α) (key : String) (v : α) (T now : ℚ)
    (hf : s.cache.find? (fun e => e.1 == key) = some (key, v, T))
    (h : s.ttl_seconds < now - T) :
    s.get key now =
      (none, { s with cache := s.cache.eraseP (fun x => x.1 == key) }) := by
  rw [TTLCache.get, hf]
  simp only [if_pos h]

/-- Behaviour of `TTLCache.get` on an entry found unexpired: the stored value
is returned and the entry moves to the most-recently-used end. -/
theorem get_live (s : TTLCache α) (key : String) (v : α) (T now : ℚ)
    (hf : s.cache.find? (fun e => e.1 == key) = some (key, v, T))
    (h : ¬ s.ttl_seconds < now - T) :
    s.get key now =
      (some v,
       { s with cache := s.cache.eraseP (fun x => x.1 == key) ++ [(key, v, T)] }) := by
  rw [TTLCache.get, hf]
  simp only [if_neg h]

/-- A `TTLCache.get` never increases the number of stored entries. -/
theorem get_length_le (s : TTLCache α) (key : String) (now : ℚ) :
    (s.get key now).2.cache.length ≤ s.cache.length := by
  rw [TTLCache.get]
  split
  · exact le_refl _
  · next e heq =>
    have hmem : e ∈ s.cache := List.mem_of_find?_eq_some heq
    have hpe : (e.1 == key) = true :=
      List.find?_some (p := fun x : CacheEntry α => x.1 == key) heq
    have hlen : (s.cache.eraseP (fun x => x.1 == key)).length =
        s.cache.length - 1 := List.length_eraseP_of_mem hmem hpe
    have hpos : 1 ≤ s.cache.length := List.length_pos.mpr
      (List.ne_nil_of_mem hmem)
    split
    · simp only [hlen]
      omega
    · simp only [List.length_append, hlen, List.length_singleton]
      omega

/-! ### Helper lemmas about the rate limiter -/

/-- On a queue sorted oldest-first (as the limiter maintains it), the
front-pruning loop removes exactly the timestamps at or before `wstart`,
i.e. it keeps the timestamps inside the window `(wstart, now]`. -/
theorem pruneOld_eq_filter (wstart : ℚ) (l : List ℚ)
    (h : l.Pairwise (· ≤ ·)) :
    pruneOld wstart l = l.filter (fun t => wstart < t) := by
  induction l with
  | nil => simp [pruneOld]
  | cons t l ih =>
    rw [List.pairwise_cons] at h
    rw [pruneOld, List.filter_cons]
    by_cases ht : t ≤ wstart
    · rw [if_pos ht]
      have h1 : decide (wstart < t) = false := decide_eq_false (not_lt.mpr ht)
      rw [h1]
      simp only [Bool.false_eq_true, if_false]
      exact ih h.2
    · rw [if_neg ht]
      have h1 : decide (wstart < t) = true := decide_eq_true (not_le.mp ht)
      rw [h1, if_pos rfl]
      have hall : ∀ x ∈ l, decide (wstart < x) = true := fun x hx =>
        decide_eq_true (lt_of_lt_of_le (not_le.mp ht) (h.1 x hx))
      rw [List.filter_eq_self.mpr hall]

/-- Pruning never lengthens the queue. -/
theorem pruneOld_length_le (wstart : ℚ) (l : List ℚ) :
    (pruneOld wstart l).length ≤ l.length := by
  induction l with
  | nil => exact le_refl _
  | cons t l ih =>
    rw [pruneOld]
    split
    · exact le_trans ih (Nat.le_succ _)
    · exact le_refl _

/-- A timestamp at or before `wstart` at the front of the queue is dropped by
the pruning loop without affecting anything else. -/
theorem pruneOld_cons_old (wstart t : ℚ) (l : List ℚ) (h : t ≤ wstart) :
    pruneOld wstart (t :: l) = pruneOld wstart l := by
  rw [pruneOld, if_pos h]

/-- Reading back the queue just written for a client returns that queue. -/
theorem getClient_setClient_self (m : List (String × List ℚ)) (c : String)
    (q : List ℚ) : getClient (setClient m c q) c = q := by
  induction m with
  | nil => simp [setClient, getClient, List.find?]
  | cons p m ih =>
    rw [setClient]
    by_cases hp : p.1 = c
    · rw [if_pos (by simpa using hp)]
      simp [getClient, List.find?]
    · rw [if_neg (by simpa using hp)]
      rw [getClient, List.find?]
      have : (p.1 == c) = false := beq_eq_false_iff_ne.mpr hp
      rw [this]
      exact ih

/-- Writing client `c`'s queue leaves every other client's queue unchanged. -/
theorem find?_setClient_ne (m : List (String × List ℚ)) (c d : String)
    (q : List ℚ) (h : c ≠ d) :
    (setClient m c q).find? (fun p => p.1 == d) =
      m.find? (fun p => p.1 == d) := by
  induction m with
  | nil =>
    rw [setClient]
    simp [h]
  | cons p m ih =>
    rw [setClient]
    by_cases hp : p.1 = c
    · rw [if_pos (by simpa using hp)]
      have h2 : p.1 ≠ d := by rw [hp]; exact h
      simp [h, h2]
    · rw [if_neg (by simpa using hp)]
      by_cases hpd : p.1 = d
      · simp [hpd]
      · rw [List.find?_cons_of_neg (p := fun x : String × List ℚ => x.1 == d)
            _ (by simp [hpd]),
          List.find?_cons_of_neg (p := fun x : String × List ℚ => x.1 == d)
            _ (by simp [hpd])]
        exact ih

/-- Writing client `c`'s queue leaves every other client's queue unchanged. -/
theorem getClient_setClient_ne (m : List (String × List ℚ)) (c d : String)
    (q : List ℚ) (h : c ≠ d) :
    getClient (setClient m c q) d = getClient m d := by
  rw [getClient, getClient, find?_setClient_ne m c d q h]

/-- Two successive writes to the same client's queue collapse to the last. -/
theorem setClient_setClient (m : List (String × List ℚ)) (c : String)
    (q1 q2 : List ℚ) :
    setClient (setClient m c q1) c q2 = setClient m c q2 := by
  induction m with
  | nil => simp [setClient]
  | cons p m ih =>
    rw [setClient]
    by_cases hp : p.1 = c
    · rw [if_pos (by simpa using hp)]
      rw [setClient, if_pos (by simp), setClient, if_pos (by simpa using hp)]
    · rw [if_neg (by simpa using hp)]
      rw [setClient, if_neg (by simpa using hp), setClient,
        if_neg (by simpa using hp), ih]

/-- After a write for client `c`, the map tracks `c`. -/
theorem mem_keys_setClient_self (m : List (String × List ℚ)) (c : String)
    (q : List ℚ) : c ∈ (setClient m c q).map Prod.fst := by
  induction m with
  | nil => simp [setClient]
  | cons p m ih =>
    rw [setClient]
    by_cases hp : p.1 = c
    · rw [if_pos (by simpa using hp)]
      simp
    · rw [if_neg (by simpa using hp)]
      rw [List.map_cons]
      exact List.mem_cons_of_mem _ ih

/-- A write never removes a tracked client from the map. -/
theorem keys_setClient_mono (m : List (String × List ℚ)) (c : String)
    (q : List ℚ) (d : String) (hd : d ∈ m.map Prod.fst) :
    d ∈ (setClient m c q).map Prod.fst := by
  induction m with
  | nil => simp at hd
  | cons p m ih =>
    rw [setClient]
    rw [List.map_cons, List.mem_cons] at hd
    by_cases hp : p.1 = c
    · rw [if_pos (by simpa using hp)]
      rcases hd with hd | hd
      · rw [List.map_cons, List.mem_cons]
        exact Or.inl (by rw [hd, hp])
      · exact List.mem_cons_of_mem _ hd
    · rw [if_neg (by simpa using hp)]
      rcases hd with hd | hd
      · rw [List.map_cons, List.mem_cons]
        exact Or.inl hd
      · exact List.mem_cons_of_mem _ (ih hd)

/-- Every binding in the written map is an old binding or the new one. -/
theorem mem_setClient (m : List (String × List ℚ)) (c : String) (q : List ℚ)
    (x : String × List ℚ) (hx : x ∈ setClient m c q) : x ∈ m ∨ x = (c, q) := by
  induction m with
  | nil =>
    rw [setClient] at hx
    exact Or.inr (List.mem_singleton.mp hx)
  | cons p m ih =>
    rw [setClient] at hx
    by_cases hp : p.1 = c
    · rw [if_pos (by simpa using hp)] at hx
      rcases List.mem_cons.mp hx with h | h
      · exact Or.inr h
      · exact Or.inl (List.mem_cons_of_mem _ h)
    · rw [if_neg (by simpa using hp)] at hx
      rcases List.mem_cons.mp hx with h | h
      · exact Or.inl (h ▸ List.mem_cons_self p m)
      · rcases ih h with h2 | h2
        · exact Or.inl (List.mem_cons_of_mem _ h2)
        · exact Or.inr h2

/-- The queue read for a client is either empty (client untracked) or is the
second component of one of the map's bindings. -/
theorem getClient_cases (m : List (String × List ℚ)) (c : String) :
    getClient m c = [] ∨ ∃ e ∈ m, getClient m c = e.2 := by
  rw [getClient]
  cases hf : m.find? (fun p => p.1 == c) with
  | none => exact Or.inl rfl
  | some e =>
    exact Or.inr ⟨e, List.mem_of_find?_eq_some hf, rfl⟩

/-! ### Claim theorems -/

/-- C1: for every `Put` (`set`) on a cache with `maxSize ≥ 1`, after the call
`Size() ≤ maxSize`; and `len(cache) ≤ maxSize` is an invariant preserved by
`get`, `set`, `clear` and `size` (`size` reads `len(cache)` and mutates
nothing). -/
theorem C1_size_bound_invariant (s : TTLCache α) (k : String) (v : α)
    (now : ℚ) (hm : 1 ≤ s.max_size) :
    (((s.set k v now).size : ℤ) ≤ s.max_size) ∧
    (((s.cache.length : ℤ) ≤ s.max_size) →
      (((s.get k now).2.size : ℤ) ≤ s.max_size)) ∧
    ((s.clear.size : ℤ) ≤ s.max_size) ∧
    (s.size = s.cache.length) := by
  refine ⟨?_, ?_, ?_, rfl⟩
  · have h := evictOldest_length_le s.max_size (by omega)
      ((if s.cache.any (fun e => e.1 == k)
        then s.cache.eraseP (fun e => e.1 == k) else s.cache) ++ [(k, v, now)])
    simpa [TTLCache.set, TTLCache.size] using h
  · intro h
    have h2 := get_length_le s k now
    simp only [TTLCache.size]
    omega
  · simp only [TTLCache.clear, TTLCache.size, List.length_nil, Nat.cast_zero]
    omega

/-- Witness for C1 at a concrete cache (`maxSize = 2`, `ttl = 5`). -/
theorem C1_size_bound_invariant_witness :
    ((((TTLCache.init ℕ 2 5).set "a" 0 0).size : ℤ) ≤
      (TTLCache.init ℕ 2 5).max_size) ∧
    ((((TTLCache.init ℕ 2 5).cache.length : ℤ) ≤
        (TTLCache.init ℕ 2 5).max_size) →
      ((((TTLCache.init ℕ 2 5).get "a" 0).2.size : ℤ) ≤
        (TTLCache.init ℕ 2 5).max_size)) ∧
    (((TTLCache.init ℕ 2 5).clear.size : ℤ) ≤ (TTLCache.init ℕ 2 5).max_size) ∧
    ((TTLCache.init ℕ 2 5).size = (TTLCache.init ℕ 2 5).cache.length) :=
  C1_size_bound_invariant (TTLCache.init ℕ 2 5) "a" 0 0 (by decide)

/-- C2: after `Put(k, v)` at time `T` (distinct keys, capacity ≥ 1), a
`Get(k)` at `T + ttl + ε` (any `ε > 0`) returns absent and removes the entry,
while a `Get(k)` at `T + ttl − ε` (`0 < ε < ttl`) returns `v`. -/
theorem C2_ttl_expiry (s : TTLCache α) (k : String) (v : α) (T ε : ℚ)
    (hnd : (s.cache.map Prod.fst).Nodup) (hm : 1 ≤ s.max_size)
    (hε : 0 < ε) (hεttl : ε < s.ttl_seconds) :
    (((s.set k v T).get k (T + s.ttl_seconds + ε)).1 = none) ∧
    (∀ x ∈ ((s.set k v T).get k (T + s.ttl_seconds + ε)).2.cache, x.1 ≠ k) ∧
    (((s.set k v T).get k (T + s.ttl_seconds - ε)).1 = some v) := by
  have hnd2 : ((s.set k v T).cache.map Prod.fst).Nodup := set_keys_nodup s k v T hnd
  have hf : (s.set k v T).cache.find? (fun e => e.1 == k) = some (k, v, T) :=
    find?_set s k v T hnd hm
  have hexp : (s.set k v T).ttl_seconds < (T + s.ttl_seconds + ε) - T := by
    show s.ttl_seconds < (T + s.ttl_seconds + ε) - T
    linarith
  have hlive : ¬ (s.set k v T).ttl_seconds < (T + s.ttl_seconds - ε) - T := by
    show ¬ s.ttl_seconds < (T + s.ttl_seconds - ε) - T
    intro hcon
    linarith
  refine ⟨?_, ?_, ?_⟩
  · rw [get_expired (s.set k v T) k v T _ hf hexp]
  · rw [get_expired (s.set k v T) k v T _ hf hexp]
    exact eraseP_no_key _ k hnd2
  · rw [get_live (s.set k v T) k v T _ hf hlive]

/-- Witness for C2 at a concrete cache (`maxSize = 1`, `ttl = 10`, `T = 0`,
`ε = 1`). -/
theorem C2_ttl_expiry_witness :
    ((((TTLCache.init ℕ 1 10).set "k" 7 0).get "k"
        (0 + (TTLCache.init ℕ 1 10).ttl_seconds + 1)).1 = none) ∧
    (∀ x ∈ (((TTLCache.init ℕ 1 10).set "k" 7 0).get "k"
        (0 + (TTLCache.init ℕ 1 10).ttl_seconds + 1)).2.cache, x.1 ≠ "k") ∧
    ((((TTLCache.init ℕ 1 10).set "k" 7 0).get "k"
        (0 + (TTLCache.init ℕ 1 10).ttl_seconds - 1)).1 = some 7) :=
  C2_ttl_expiry (TTLCache.init ℕ 1 10) "k" 7 0 1 (by decide) (by decide)
    (by decide) (by decide)

/-- C3: with `maxSize = 2` and no expiry in play (`ttl = 1000`), the sequence
`Put(a,1)`, `Put(b,2)`, `Get(a)`, `Put(c,3)` evicts `b` (the least recently
used entry after the `Get` promoted `a`) and keeps `a` and `c`. -/
theorem C3_lru_eviction :
    (((((TTLCache.init ℕ 2 1000).set "a" 1 0).set "b" 2 1).get "a" 2).1 =
      some 1) ∧
    ((((((TTLCache.init ℕ 2 1000).set "a" 1 0).set "b" 2 1).get "a" 2).2.set
        "c" 3 3).cache.map Prod.fst = ["a", "c"]) ∧
    (((((((TTLCache.init ℕ 2 1000).set "a" 1 0).set "b" 2 1).get "a"
        2).2.set "c" 3 3).get "b" 4).1 = none) ∧
    (((((((TTLCache.init ℕ 2 1000).set "a" 1 0).set "b" 2 1).get "a"
        2).2.set "c" 3 3).get "a" 4).1 = some 1) ∧
    (((((((TTLCache.init ℕ 2 1000).set "a" 1 0).set "b" 2 1).get "a"
        2).2.set "c" 3 3).get "c" 4).1 = some 3) := by decide

/-- C4: `Put(k, v1)` at `T1` followed by `Put(k, v2)` at a later `T2` fully
replaces the entry: a `Get(k)` shortly before `T2 + ttl` returns `v2` (the
TTL clock restarted at `T2`), a `Get(k)` after `T2 + ttl` returns absent, the
stored entry is exactly `(k, v2, T2)`, and it sits at the most-recently-used
end. -/
theorem C4_replace_resets (s : TTLCache α) (k : String) (v1 v2 : α)
    (T1 T2 ε : ℚ) (hnd : (s.cache.map Prod.fst).Nodup) (hm : 1 ≤ s.max_size)
    (hT : T1 < T2) (hε : 0 < ε) (hεttl : ε < s.ttl_seconds) :
    ((((s.set k v1 T1).set k v2 T2).get k (T2 + s.ttl_seconds - ε)).1 =
      some v2) ∧
    ((((s.set k v1 T1).set k v2 T2).get k (T2 + s.ttl_seconds + ε)).1 =
      none) ∧
    (((s.set k v1 T1).set k v2 T2).cache.find? (fun e => e.1 == k) =
      some (k, v2, T2)) ∧
    (((s.set k v1 T1).set k v2 T2).cache.getLast? = some (k, v2, T2)) := by
  have hnd1 : ((s.set k v1 T1).cache.map Prod.fst).Nodup :=
    set_keys_nodup s k v1 T1 hnd
  have hm1 : 1 ≤ (s.set k v1 T1).max_size := hm
  have hf : ((s.set k v1 T1).set k v2 T2).cache.find? (fun e => e.1 == k) =
      some (k, v2, T2) := find?_set (s.set k v1 T1) k v2 T2 hnd1 hm1
  have hlive : ¬ ((s.set k v1 T1).set k v2 T2).ttl_seconds <
      (T2 + s.ttl_seconds - ε) - T2 := by
    show ¬ s.ttl_seconds < (T2 + s.ttl_seconds - ε) - T2
    intro hcon
    linarith
  have hexp : ((s.set k v1 T1).set k v2 T2).ttl_seconds <
      (T2 + s.ttl_seconds + ε) - T2 := by
    show s.ttl_seconds < (T2 + s.ttl_seconds + ε) - T2
    linarith
  refine ⟨?_, ?_, hf, getLast?_set (s.set k v1 T1) k v2 T2 hnd1 hm1⟩
  · rw [get_live ((s.set k v1 T1).set k v2 T2) k v2 T2 _ hf hlive]
  · rw [get_expired ((s.set k v1 T1).set k v2 T2) k v2 T2 _ hf hexp]

/-- Witness for C4 at a concrete cache (`maxSize = 2`, `ttl = 10`, `T1 = 0`,
`T2 = 5`, `ε = 1`). -/
theorem C4_replace_resets_witness :
    ((((TTLCache.init ℕ 2 10).set "k" 1 0).set "k" 2 5).get "k"
        (5 + (TTLCache.init ℕ 2 10).ttl_seconds - 1)).1 = some 2 ∧
    ((((TTLCache.init ℕ 2 10).set "k" 1 0).set "k" 2 5).get "k"
        (5 + (TTLCache.init ℕ 2 10).ttl_seconds + 1)).1 = none ∧
    ((((TTLCache.init ℕ 2 10).set "k" 1 0).set "k" 2 5).cache.find?
        (fun e => e.1 == "k") = some ("k", 2, 5)) ∧
    ((((TTLCache.init ℕ 2 10).set "k" 1 0).set "k" 2 5).cache.getLast? =
      some ("k", 2, 5)) :=
  C4_replace_resets (TTLCache.init ℕ 2 10) "k" 1 2 0 5 1 (by decide)
    (by decide) (by decide) (by decide) (by decide)

/-- The timestamps the spec keeps: those inside the trailing window
`(now − windowSeconds, now]` (the spec's wording for pruning: all entries
older than `now − windowSeconds` are removed, boundary included per the
sliding-window section). -/
def windowKept (now w : ℚ) (q : List ℚ) : List ℚ :=
  q.filter (fun t => now - w < t)

/-- C5: `Admit` first prunes the client's queue to the timestamps inside the
window, then: if the pruned length is under `maxRequests` it appends `now`
and returns `(true, maxRequests − newLength)` with the appended queue stored;
otherwise it returns `(false, 0)` and stores the pruned queue unchanged — a
rejected request consumes no quota.  (The queue is sorted oldest-first, as
the limiter maintains it.) -/
theorem C5_allowed_contract (s : RateLimiter) (c : String) (now : ℚ)
    (hsorted : (getClient s.requests c).Pairwise (· ≤ ·)) :
    (((windowKept now s.window_seconds (getClient s.requests c)).length : ℤ) <
        s.max_requests →
      (s.is_allowed c now).1 =
          (true,
           s.max_requests -
             (((windowKept now s.window_seconds
                 (getClient s.requests c)).length : ℤ) + 1)) ∧
        (s.is_allowed c now).2.requests =
          setClient s.requests c
            (windowKept now s.window_seconds (getClient s.requests c) ++
              [now])) ∧
    (¬ (((windowKept now s.window_seconds
           (getClient s.requests c)).length : ℤ) < s.max_requests) →
      (s.is_allowed c now).1 = (false, 0) ∧
        (s.is_allowed c now).2.requests =
          setClient s.requests c
            (windowKept now s.window_seconds (getClient s.requests c))) := by
  have hpe : pruneOld (now - s.window_seconds) (getClient s.requests c) =
      windowKept now s.window_seconds (getClient s.requests c) :=
    pruneOld_eq_filter _ _ hsorted
  constructor
  · intro h
    constructor
    · simp only [RateLimiter.is_allowed, hpe]
      rw [if_pos h]
      simp [List.length_append]
    · simp only [RateLimiter.is_allowed, hpe]
      rw [if_pos h]
  · intro h
    constructor
    · simp only [RateLimiter.is_allowed, hpe]
      rw [if_neg h]
    · simp only [RateLimiter.is_allowed, hpe]
      rw [if_neg h]

/-- C6: a request timestamp `t` never influences an `Admit` decision made at
`now ≥ t + windowSeconds`: dropping such a timestamp from the front of the
client's queue changes neither the result nor the post-state (the counted
window is the half-open interval `(now − windowSeconds, now]`, so a
timestamp exactly `windowSeconds` old is pruned).  Concretely, with
`maxRequests = 3, windowSeconds = 60`: three admits within one second return
`(true, 2)`, `(true, 1)`, `(true, 0)`, a fourth in the window returns
`(false, 0)`, and an admit at 61 seconds returns `(true, 2)` again; with
`maxRequests = 1` a queue entry exactly 60 seconds old is pruned and the
client readmitted. -/
theorem C6_window_exclusion (s : RateLimiter) (c : String) (t now : ℚ)
    (q : List ℚ) (hold : t + s.window_seconds ≤ now) :
    ((s.withQueue c (t :: q)).is_allowed c now =
      (s.withQueue c q).is_allowed c now) ∧
    (((RateLimiter.init 3 60).is_allowed "x" 0).1 = (true, 2) ∧
      ((((RateLimiter.init 3 60).is_allowed "x" 0).2.is_allowed "x"
          (1/2)).1 = (true, 1)) ∧
      (((((RateLimiter.init 3 60).is_allowed "x" 0).2.is_allowed "x"
          (1/2)).2.is_allowed "x" 1).1 = (true, 0)) ∧
      ((((((RateLimiter.init 3 60).is_allowed "x" 0).2.is_allowed "x"
          (1/2)).2.is_allowed "x" 1).2.is_allowed "x" (3/2)).1 =
        (false, 0)) ∧
      (((((((RateLimiter.init 3 60).is_allowed "x" 0).2.is_allowed "x"
          (1/2)).2.is_allowed "x" 1).2.is_allowed "x" (3/2)).2.is_allowed
          "x" 61).1 = (true, 2)) ∧
      ((((RateLimiter.init 1 60).withQueue "y" [0]).is_allowed "y" 60).1 =
        (true, 0))) := by
  constructor
  · have hget1 : getClient (setClient s.requests c (t :: q)) c = t :: q :=
      getClient_setClient_self _ _ _
    have hget2 : getClient (setClient s.requests c q) c = q :=
      getClient_setClient_self _ _ _
    have hp : pruneOld (now - s.window_seconds) (t :: q) =
        pruneOld (now - s.window_seconds) q :=
      pruneOld_cons_old _ _ _ (by linarith)
    simp only [RateLimiter.is_allowed, RateLimiter.withQueue, hget1, hget2,
      hp, setClient_setClient]
  · decide

/-- Witness for C6 at a concrete limiter (`maxRequests = 3`,
`windowSeconds = 60`, a timestamp at 0 dropped at `now = 60`). -/
theorem C6_window_exclusion_witness :
    (((RateLimiter.init 3 60).withQueue "z" ((0 : ℚ) :: [])).is_allowed "z"
        60 =
      ((RateLimiter.init 3 60).withQueue "z" []).is_allowed "z" 60) ∧
    (((RateLimiter.init 3 60).is_allowed "x" 0).1 = (true, 2) ∧
      ((((RateLimiter.init 3 60).is_allowed "x" 0).2.is_allowed "x"
          (1/2)).1 = (true, 1)) ∧
      (((((RateLimiter.init 3 60).is_allowed "x" 0).2.is_allowed "x"
          (1/2)).2.is_allowed "x" 1).1 = (true, 0)) ∧
      ((((((RateLimiter.init 3 60).is_allowed "x" 0).2.is_allowed "x"
          (1/2)).2.is_allowed "x" 1).2.is_allowed "x" (3/2)).1 =
        (false, 0)) ∧
      (((((((RateLimiter.init 3 60).is_allowed "x" 0).2.is_allowed "x"
          (1/2)).2.is_allowed "x" 1).2.is_allowed "x" (3/2)).2.is_allowed
          "x" 61).1 = (true, 2)) ∧
      ((((RateLimiter.init 1 60).withQueue "y" [0]).is_allowed "y" 60).1 =
        (true, 0))) :=
  C6_window_exclusion (RateLimiter.init 3 60) "z" 0 60 [] (by decide)

/-- Witness for C5 at a concrete limiter (`maxRequests = 3`,
`windowSeconds = 60`, fresh client). -/
theorem C5_allowed_contract_witness :
    (((windowKept 0 (RateLimiter.init 3 60).window_seconds
        (getClient (RateLimiter.init 3 60).requests "x")).length : ℤ) <
        (RateLimiter.init 3 60).max_requests →
      ((RateLimiter.init 3 60).is_allowed "x" 0).1 =
          (true,
           (RateLimiter.init 3 60).max_requests -
             (((windowKept 0 (RateLimiter.init 3 60).window_seconds
                 (getClient (RateLimiter.init 3 60).requests "x")).length :
                ℤ) + 1)) ∧
        ((RateLimiter.init 3 60).is_allowed "x" 0).2.requests =
          setClient (RateLimiter.init 3 60).requests "x"
            (windowKept 0 (RateLimiter.init 3 60).window_seconds
              (getClient (RateLimiter.init 3 60).requests "x") ++
              [0])) ∧
    (¬ (((windowKept 0 (RateLimiter.init 3 60).window_seconds
           (getClient (RateLimiter.init 3 60).requests "x")).length : ℤ) <
          (RateLimiter.init 3 60).max_requests) →
      ((RateLimiter.init 3 60).is_allowed "x" 0).1 = (false, 0) ∧
        ((RateLimiter.init 3 60).is_allowed "x" 0).2.requests =
          setClient (RateLimiter.init 3 60).requests "x"
            (windowKept 0 (RateLimiter.init 3 60).window_seconds
              (getClient (RateLimiter.init 3 60).requests "x"))) :=
  C5_allowed_contract (RateLimiter.init 3 60) "x" 0 (by decide)

/-- Counterexample to C7: constructing with zero or negative configuration
values signals no error at construction time — each constructor simply
returns an instance carrying the given fields (shown for `maxSize = 0,
ttlSeconds = 0`, for `maxSize = −1, ttlSeconds = −1`, and for
`maxRequests = 0, windowSeconds = −1`), and operations invoked on the
zero-configured instances return ordinary values; nothing fails fast. -/
theorem C7_counterexample :
    (TTLCache.init ℕ 0 0).max_size = 0 ∧
    (TTLCache.init ℕ 0 0).cache = [] ∧
    ((TTLCache.init ℕ 0 0).set "k" 5 0).size = 0 ∧
    ((TTLCache.init ℕ 0 0).get "k" 1).1 = none ∧
    (TTLCache.init ℕ (-1) (-1)).max_size = -1 ∧
    (TTLCache.init ℕ (-1) (-1)).cache = [] ∧
    (RateLimiter.init 0 (-1)).max_requests = 0 ∧
    ((RateLimiter.init 0 (-1)).is_allowed "c" 0).1 = (false, 0) ∧
    ((RateLimiter.init 0 (-1)).get_remaining "c" 0).1 = 0 := by decide

/-- C7 as amended: construction never fails fast — the constructors validate
nothing, store the given parameters unchanged (zero and negative values
included) and return an instance with an empty store.  A misconfiguration
surfaces only later, at operation time, if at all: on a cache built with a
negative `maxSize` the first `set` raises `KeyError` inside the eviction
loop (`set?` returns `none`), whereas with `maxSize = 0` the `set` returns
normally and merely retains nothing. -/
theorem C7_no_validation (m t mr w : ℤ) :
    (TTLCache.init ℕ m t).max_size = m ∧
    (TTLCache.init ℕ m t).ttl_seconds = (t : ℚ) ∧
    (TTLCache.init ℕ m t).cache = [] ∧
    (RateLimiter.init mr w).max_requests = mr ∧
    (RateLimiter.init mr w).window_seconds = (w : ℚ) ∧
    (RateLimiter.init mr w).requests = [] ∧
    ((TTLCache.init ℕ (-1) (-1)).set? "k" 0 0 = none) ∧
    ((TTLCache.init ℕ 0 0).set? "k" 0 0 =
      some ((TTLCache.init ℕ 0 0).set "k" 0 0)) :=
  ⟨rfl, rfl, rfl, rfl, rfl, rfl, by decide, by decide⟩

/-- C8: `Size()` counts logically expired entries that have not been lazily
swept: after `Put(k, v)` at `T`, the entry `k` is in the store and counted by
`size` (which reads `len(cache)` and takes no clock input, so mere passage
of time never changes it); only a `Get(k)` after expiry (`now > T + ttl`)
removes it, decrementing the count by one. -/
theorem C8_lazy_expiry (s : TTLCache α) (k : String) (v : α) (T now : ℚ)
    (hnd : (s.cache.map Prod.fst).Nodup) (hm : 1 ≤ s.max_size)
    (hlate : s.ttl_seconds < now - T) :
    (k ∈ (s.set k v T).cache.map Prod.fst) ∧
    ((s.set k v T).size = (s.set k v T).cache.length) ∧
    (((s.set k v T).get k now).1 = none) ∧
    (((s.set k v T).get k now).2.size + 1 = (s.set k v T).size) ∧
    (∀ x ∈ ((s.set k v T).get k now).2.cache, x.1 ≠ k) := by
  have hnd2 : ((s.set k v T).cache.map Prod.fst).Nodup :=
    set_keys_nodup s k v T hnd
  have hf : (s.set k v T).cache.find? (fun e => e.1 == k) = some (k, v, T) :=
    find?_set s k v T hnd hm
  have hexp : (s.set k v T).ttl_seconds < now - T := hlate
  have hmem : ((k, v, T) : CacheEntry α) ∈ (s.set k v T).cache :=
    List.mem_of_find?_eq_some hf
  have hpos : 1 ≤ (s.set k v T).cache.length :=
    List.length_pos.mpr (List.ne_nil_of_mem hmem)
  have hlen : ((s.set k v T).cache.eraseP (fun x => x.1 == k)).length =
      (s.set k v T).cache.length - 1 :=
    List.length_eraseP_of_mem hmem (by simp)
  refine ⟨?_, rfl, ?_, ?_, ?_⟩
  · exact List.mem_map_of_mem Prod.fst hmem
  · rw [get_expired (s.set k v T) k v T now hf hexp]
  · rw [get_expired (s.set k v T) k v T now hf hexp]
    simp only [TTLCache.size]
    omega
  · rw [get_expired (s.set k v T) k v T now hf hexp]
    exact eraseP_no_key _ k hnd2

/-- Witness for C8 at a concrete cache (`maxSize = 1`, `ttl = 10`, `T = 0`,
`now = 11`). -/
theorem C8_lazy_expiry_witness :
    ("k" ∈ ((TTLCache.init ℕ 1 10).set "k" 7 0).cache.map Prod.fst) ∧
    (((TTLCache.init ℕ 1 10).set "k" 7 0).size =
      ((TTLCache.init ℕ 1 10).set "k" 7 0).cache.length) ∧
    ((((TTLCache.init ℕ 1 10).set "k" 7 0).get "k" 11).1 = none) ∧
    ((((TTLCache.init ℕ 1 10).set "k" 7 0).get "k" 11).2.size + 1 =
      ((TTLCache.init ℕ 1 10).set "k" 7 0).size) ∧
    (∀ x ∈ (((TTLCache.init ℕ 1 10).set "k" 7 0).get "k" 11).2.cache,
      x.1 ≠ "k") :=
  C8_lazy_expiry (TTLCache.init ℕ 1 10) "k" 7 0 11 (by decide) (by decide)
    (by decide)

/-- The outcome of `is_allowed` depends only on the configuration and the
caller's own queue. -/
theorem is_allowed_fst_congr (x y : RateLimiter) (b : String) (now : ℚ)
    (hmax : x.max_requests = y.max_requests)
    (hwin : x.window_seconds = y.window_seconds)
    (hq : getClient x.requests b = getClient y.requests b) :
    (x.is_allowed b now).1 = (y.is_allowed b now).1 := by
  simp only [RateLimiter.is_allowed, hq, hmax, hwin]
  rw [apply_ite (f := Prod.fst), apply_ite (f := Prod.fst)]

/-- An `is_allowed` call for one client leaves every other client's queue
untouched. -/
theorem is_allowed_frame (s : RateLimiter) (a b : String) (now : ℚ)
    (hab : a ≠ b) :
    getClient ((s.is_allowed a now).2).requests b =
      getClient s.requests b := by
  simp only [RateLimiter.is_allowed]
  split
  · exact getClient_setClient_ne _ _ _ _ hab
  · exact getClient_setClient_ne _ _ _ _ hab

/-- An `is_allowed` call never changes the configuration fields. -/
theorem is_allowed_config (s : RateLimiter) (a : String) (now : ℚ) :
    (s.is_allowed a now).2.max_requests = s.max_requests ∧
    (s.is_allowed a now).2.window_seconds = s.window_seconds := by
  simp only [RateLimiter.is_allowed]
  split
  · exact ⟨rfl, rfl⟩
  · exact ⟨rfl, rfl⟩

/-- C9: per-client noninterference — the `(allowed, remaining)` outcome for
client `b` is a function of `b`'s queue, the configuration and the call time
alone: two limiters agreeing on those agree on the outcome; a call by a
different client `a` (in particular one exhausting `a`'s quota) leaves `b`'s
queue unchanged and therefore changes no outcome for `b`. -/
theorem C9_per_client_isolation (s1 s2 : RateLimiter) (a b : String)
    (na nb : ℚ) (hmax : s1.max_requests = s2.max_requests)
    (hwin : s1.window_seconds = s2.window_seconds)
    (hq : getClient s1.requests b = getClient s2.requests b) (hab : a ≠ b) :
    ((s1.is_allowed b nb).1 = (s2.is_allowed b nb).1) ∧
    (getClient ((s1.is_allowed a na).2).requests b =
      getClient s1.requests b) ∧
    (((s1.is_allowed a na).2.is_allowed b nb).1 = (s2.is_allowed b nb).1) := by
  refine ⟨is_allowed_fst_congr s1 s2 b nb hmax hwin hq,
    is_allowed_frame s1 a b na hab, ?_⟩
  have hc := is_allowed_config s1 a na
  exact is_allowed_fst_congr _ s2 b nb (hc.1.trans hmax) (hc.2.trans hwin)
    ((is_allowed_frame s1 a b na hab).trans hq)

/-- Witness for C9: client `a` holds the whole quota of `s1`
(`maxRequests = 1`), client `b` is fresh in both limiters. -/
theorem C9_per_client_isolation_witness :
    (((((RateLimiter.init 1 60).withQueue "a" [0]).is_allowed "b" 1).1 =
      ((RateLimiter.init 1 60).is_allowed "b" 1).1)) ∧
    (getClient ((((RateLimiter.init 1 60).withQueue "a" [0]).is_allowed "a"
        1).2).requests "b" =
      getClient ((RateLimiter.init 1 60).withQueue "a" [0]).requests "b") ∧
    (((((RateLimiter.init 1 60).withQueue "a" [0]).is_allowed "a"
        1).2.is_allowed "b" 1).1 =
      ((RateLimiter.init 1 60).is_allowed "b" 1).1) :=
  C9_per_client_isolation ((RateLimiter.init 1 60).withQueue "a" [0])
    (RateLimiter.init 1 60) "a" "b" 1 1 (by decide) (by decide) (by decide)
    (by decide)

/-- Under the limiter's invariants, a client's stored queue never exceeds
`max_requests` entries. -/
theorem getClient_length_bound (s : RateLimiter) (c : String)
    (hmax : 0 ≤ s.max_requests)
    (hlen : ∀ e ∈ s.requests, ((e.2.length : ℤ) ≤ s.max_requests)) :
    ((getClient s.requests c).length : ℤ) ≤ s.max_requests := by
  rcases getClient_cases s.requests c with h | ⟨e, hmem, h⟩
  · rw [h]
    simpa using hmax
  · rw [h]
    exact hlen e hmem

/-- C10: every limiter call — an `is_allowed` with either outcome, and the
read-only `get_remaining` query — leaves the queried client id tracked in
the client map (the `defaultdict` inserts a possibly empty queue on first
access); no call removes a tracked id; and every stored queue keeps at most
`maxRequests` timestamps. -/
theorem C10_client_map_tracking (s : RateLimiter) (c d : String) (now : ℚ)
    (hmax : 0 ≤ s.max_requests)
    (hlen : ∀ e ∈ s.requests, ((e.2.length : ℤ) ≤ s.max_requests))
    (hd : d ∈ s.requests.map Prod.fst) :
    (c ∈ ((s.is_allowed c now).2).requests.map Prod.fst) ∧
    (c ∈ ((s.get_remaining c now).2).requests.map Prod.fst) ∧
    (d ∈ ((s.is_allowed c now).2).requests.map Prod.fst) ∧
    (d ∈ ((s.get_remaining c now).2).requests.map Prod.fst) ∧
    (∀ e ∈ ((s.is_allowed c now).2).requests,
      ((e.2.length : ℤ) ≤ s.max_requests)) ∧
    (∀ e ∈ ((s.get_remaining c now).2).requests,
      ((e.2.length : ℤ) ≤ s.max_requests)) := by
  have hbound : ((getClient s.requests c).length : ℤ) ≤ s.max_requests :=
    getClient_length_bound s c hmax hlen
  have hple : (pruneOld (now - s.window_seconds)
      (getClient s.requests c)).length ≤ (getClient s.requests c).length :=
    pruneOld_length_le _ _
  refine ⟨?_, ?_, ?_, ?_, ?_, ?_⟩
  · simp only [RateLimiter.is_allowed]
    split
    · exact mem_keys_setClient_self _ _ _
    · exact mem_keys_setClient_self _ _ _
  · exact mem_keys_setClient_self _ _ _
  · simp only [RateLimiter.is_allowed]
    split
    · exact keys_setClient_mono _ _ _ _ hd
    · exact keys_setClient_mono _ _ _ _ hd
  · exact keys_setClient_mono _ _ _ _ hd
  · simp only [RateLimiter.is_allowed]
    split
    · next h =>
      intro e he
      rcases mem_setClient _ _ _ _ he with h2 | h2
      · exact hlen e h2
      · rw [h2]
        simp only [List.length_append, List.length_singleton]
        push_cast
        omega
    · next h =>
      intro e he
      rcases mem_setClient _ _ _ _ he with h2 | h2
      · exact hlen e h2
      · rw [h2]
        simp only []
        omega
  · intro e he
    rcases mem_setClient _ _ _ _ he with h2 | h2
    · exact hlen e h2
    · rw [h2]
      simp only []
      omega

/-- Witness for C10: a limiter with `maxRequests = 2` already tracking
client `d`, queried for the fresh client `c`. -/
theorem C10_client_map_tracking_witness :
    ("c" ∈ ((((RateLimiter.init 2 60).withQueue "d" [0]).is_allowed "c"
        1).2).requests.map Prod.fst) ∧
    ("c" ∈ ((((RateLimiter.init 2 60).withQueue "d" [0]).get_remaining "c"
        1).2).requests.map Prod.fst) ∧
    ("d" ∈ ((((RateLimiter.init 2 60).withQueue "d" [0]).is_allowed "c"
        1).2).requests.map Prod.fst) ∧
    ("d" ∈ ((((RateLimiter.init 2 60).withQueue "d" [0]).get_remaining "c"
        1).2).requests.map Prod.fst) ∧
    (∀ e ∈ ((((RateLimiter.init 2 60).withQueue "d" [0]).is_allowed "c"
        1).2).requests,
      ((e.2.length : ℤ) ≤
        ((RateLimiter.init 2 60).withQueue "d" [0]).max_requests)) ∧
    (∀ e ∈ ((((RateLimiter.init 2 60).withQueue "d" [0]).get_remaining "c"
        1).2).requests,
      ((e.2.length : ℤ) ≤
        ((RateLimiter.init 2 60).withQueue "d" [0]).max_requests)) :=
  C10_client_map_tracking ((RateLimiter.init 2 60).withQueue "d" [0]) "c" "d"
    1 (by decide) (by decide) (by decide)
